import Mathlib

/-!
Shallow embedding of the per-user task store and the reminder sweep of
`src/main.py` (ITMORemindBot).  The sqlite database is modelled as an
ordered list of named tables; each table holds its rows in rowid order
together with the AUTOINCREMENT sequence value, so a fresh id is always
`seq + 1` and `DROP TABLE` also discards the sequence.
-/

namespace RemindBot

/-- A persisted task row, schema
`(id INTEGER PK AUTOINCREMENT, title TEXT, due_datetime TEXT, done INTEGER DEFAULT 0, note TEXT)`. -/
structure Task where
  id : Nat
  title : String
  due_datetime : String
  done : Nat
  note : Option String
deriving DecidableEq

/-- One per-user sqlite table: rows in insertion (rowid) order plus the
AUTOINCREMENT sequence value. -/
structure Table where
  rows : List Task
  seq : Nat
deriving DecidableEq

/-- The database: the tables of `sqlite_master` in creation order, each with its name. -/
abbrev DB := List (String × Table)

/-- Look up a table by name (first match; names are unique in an actual sqlite file). -/
def getTable : DB → String → Option Table
  | [], _ => none
  | p :: rest, name => if p.1 = name then some p.2 else getTable rest name

/-- Replace the contents of the (first) table with the given name. -/
def setTable : DB → String → Table → DB
  | [], _, _ => []
  | p :: rest, name, t => if p.1 = name then (name, t) :: rest else p :: setTable rest name t

/-- `DROP TABLE`: remove the (first) table with the given name. -/
def dropTable : DB → String → DB
  | [], _ => []
  | p :: rest, name => if p.1 = name then rest else p :: dropTable rest name

/-- The ASCII digit character for `d` (meaningful for `d ≤ 9`). -/
def digitChar (d : Nat) : Char := Char.ofNat (48 + d)

/-- Fuel-driven most-significant-first decimal digit accumulation. -/
def natDigitsCore : Nat → Nat → List Char → List Char
  | 0, _, acc => acc
  | fuel + 1, n, acc =>
    if n = 0 then acc else natDigitsCore fuel (n / 10) (digitChar (n % 10) :: acc)

/-- Decimal digits of `n`, most significant first, as Python `str(n)` renders them. -/
def natDigits (n : Nat) : List Char := if n = 0 then ['0'] else natDigitsCore (n + 1) n []

/-- Python `str(n)` for a natural number. -/
def natRepr (n : Nat) : String := String.mk (natDigits n)

/-- Numeric value of a run of decimal digit characters (Python `int` on a digit string). -/
def digitsToNat (cs : List Char) : Nat := cs.foldl (fun acc c => acc * 10 + (c.toNat - 48)) 0

/-- `TaskStorage._table_name`, the f-string `USER_{user_id}`. -/
def tableName (user_id : Nat) : String := "USER_" ++ natRepr user_id

/-- `re.match` of `USER_` followed by a digit run, then `int(match.group(1))`:
the integer parsed from the leading digit run after `USER_`, or `none` when the
name does not start with `USER_` plus at least one digit.  (`re.match` only
anchors at the start, so trailing characters after the digits are allowed.) -/
def extractIdChars : List Char → Option Nat
  | 'U' :: 'S' :: 'E' :: 'R' :: '_' :: rest =>
    let ds := rest.takeWhile Char.isDigit
    if ds.isEmpty then none else some (digitsToNat ds)
  | _ => none

/-- Same match, applied to the characters of the table name. -/
def extractUserId (name : String) : Option Nat := extractIdChars name.data

/-- `TaskStorage.ensure_user_table`: `CREATE TABLE IF NOT EXISTS USER_<id> (...)`. -/
def ensure_user_table (db : DB) (user_id : Nat) : DB :=
  if (getTable db (tableName user_id)).isSome then db
  else db ++ [(tableName user_id, ⟨[], 0⟩)]

/-- `TaskStorage.add_task`: ensure the table, then `INSERT (title, due_datetime)`
(`done` defaults to `0`, `note` to NULL, the id to `seq + 1`).  The Python method
has no `return` statement, so the second component is its returned value, `None`. -/
def add_task (db : DB) (user_id : Nat) (title due_datetime : String) : DB × Option Nat :=
  let db1 := ensure_user_table db user_id
  match getTable db1 (tableName user_id) with
  | some t =>
    (setTable db1 (tableName user_id)
      ⟨t.rows ++ [⟨t.seq + 1, title, due_datetime, 0, none⟩], t.seq + 1⟩, none)
  | none => (db1, none)

/-- `TaskStorage.list_tasks`: ensure the table, then `SELECT id, title, due_datetime, done`. -/
def list_tasks (db : DB) (user_id : Nat) : DB × List (Nat × String × String × Nat) :=
  let db1 := ensure_user_table db user_id
  match getTable db1 (tableName user_id) with
  | some t => (db1, t.rows.map fun r => (r.id, r.title, r.due_datetime, r.done))
  | none => (db1, [])

/-- `TaskStorage.mark_done`: `UPDATE ... SET done = int(done) WHERE id = task_id`,
without ensuring the table first — `none` models the `sqlite3.OperationalError`
raised when the user's table does not exist. -/
def mark_done (db : DB) (user_id task_id : Nat) (done : Bool) : Option DB :=
  match getTable db (tableName user_id) with
  | none => none
  | some t =>
    some (setTable db (tableName user_id)
      ⟨t.rows.map fun r =>
        if r.id = task_id then { r with done := if done then 1 else 0 } else r, t.seq⟩)

/-- `TaskStorage.delete_task`: `DELETE ... WHERE id = task_id`, then `SELECT COUNT(*)`
and `DROP TABLE` when the count is zero.  No ensure first, so `none` models the
error on a missing table. -/
def delete_task (db : DB) (user_id task_id : Nat) : Option DB :=
  match getTable db (tableName user_id) with
  | none => none
  | some t =>
    let remaining := t.rows.filter fun r => r.id != task_id
    let db1 := setTable db (tableName user_id) ⟨remaining, t.seq⟩
    if remaining.length = 0 then some (dropTable db1 (tableName user_id)) else some db1

/-- `TaskStorage.get_all_user_ids`: scan the `sqlite_master` names and collect
every name matching `USER_` plus digits. -/
def get_all_user_ids (db : DB) : List Nat := db.filterMap fun p => extractUserId p.1

/-- `TaskStorage.get_pending_tasks`: ensure the table, then
`SELECT id, title, due_datetime WHERE done = 0`. -/
def get_pending_tasks (db : DB) (user_id : Nat) : DB × List (Nat × String × String) :=
  let db1 := ensure_user_table db user_id
  match getTable db1 (tableName user_id) with
  | some t =>
    (db1, (t.rows.filter fun r => r.done == 0).map fun r => (r.id, r.title, r.due_datetime))
  | none => (db1, [])

/-- `mark_done(u, id, True)` followed by `mark_done(u, id, False)`: the round trip of C7. -/
def mark_round_trip (db : DB) (user_id task_id : Nat) : Option DB :=
  (mark_done db user_id task_id true).bind fun db1 => mark_done db1 user_id task_id false

/-- Whether the named collection currently exists and holds no rows. -/
def isEmptyCollection (db : DB) (name : String) : Bool :=
  match getTable db name with
  | some t => t.rows.isEmpty
  | none => false

/-- The rows currently stored for a user (empty when the table does not exist). -/
def rowsOf (db : DB) (user_id : Nat) : List Task :=
  match getTable db (tableName user_id) with
  | some t => t.rows
  | none => []

/-- The rows currently stored for a user with `done = 0`. -/
def pendingRows (db : DB) (user_id : Nat) : List Task :=
  match getTable db (tableName user_id) with
  | some t => t.rows.filter fun r => r.done == 0
  | none => []

/-- One reminder line, the f-string `{id}. {title} — {due_datetime}` plus a newline. -/
def reminderLine (t : Nat × String × String) : String :=
  natRepr t.1 ++ ". " ++ t.2.1 ++ " — " ++ t.2.2 ++ "\n"

/-- Header of the reminder message. -/
def reminderHeader : String := "Напоминание! У вас есть невыполненные задачи:\n"

/-- The text `reminder_task` sends: the header plus the lines joined with `"\n"`. -/
def reminderMessage (ts : List (Nat × String × String)) : String :=
  reminderHeader ++ String.intercalate ("\n") (ts.map reminderLine)

/-- Observable outcome of one sweep run: final database, the delivery calls made
(in order, as `(chat_id, text)`), and the users whose delivery raised and was logged. -/
structure SweepResult where
  db : DB
  sent : List (Nat × String)
  errors : List Nat
deriving DecidableEq

/-- Body of the per-user loop of `reminder_task`: fetch the pending tasks
(which provisions the table), send only when non-empty, catch a delivery failure. -/
def sweepStep (fails : Nat → Bool) (st : SweepResult) (u : Nat) : SweepResult :=
  let p := get_pending_tasks st.db u
  if p.2.isEmpty then { st with db := p.1 }
  else
    { db := p.1, sent := st.sent ++ [(u, reminderMessage p.2)],
      errors := if fails u then st.errors ++ [u] else st.errors }

/-- `reminder_task`: iterate over `get_all_user_ids`, parameterised by which
deliveries fail (`fails u = true` means sending to `u` raises). -/
def reminder_task (db : DB) (fails : Nat → Bool) : SweepResult :=
  (get_all_user_ids db).foldl (sweepStep fails) ⟨db, [], []⟩

/-! ### Decimal rendering lemmas -/

lemma natDigitsCore_zero (fuel : Nat) (acc : List Char) : natDigitsCore fuel 0 acc = acc := by
  cases fuel <;> simp [natDigitsCore]

lemma natDigitsCore_succ (fuel n : Nat) (acc : List Char) :
    natDigitsCore (fuel + 1) (n + 1) acc
      = natDigitsCore fuel ((n + 1) / 10) (digitChar ((n + 1) % 10) :: acc) := by
  rw [natDigitsCore, if_neg (Nat.succ_ne_zero n)]

lemma natDigitsCore_fuel : ∀ n fuel acc, n < fuel →
    natDigitsCore fuel n acc = natDigitsCore (n + 1) n acc := by
  intro n
  induction n using Nat.strong_induction_on with
  | _ n ih =>
    intro fuel acc hf
    rcases n with _ | m
    · rw [natDigitsCore_zero, natDigitsCore_zero]
    · rcases fuel with _ | f
      · exact absurd hf (by omega)
      · have hd : (m + 1) / 10 < m + 1 := Nat.div_lt_self (Nat.succ_pos m) (by omega)
        rw [natDigitsCore_succ f m acc, natDigitsCore_succ (m + 1) m acc]
        rw [ih ((m + 1) / 10) hd f _ (by omega), ih ((m + 1) / 10) hd (m + 1) _ hd]

lemma natDigitsCore_unfold (m : Nat) (acc : List Char) :
    natDigitsCore (m + 2) (m + 1) acc
      = natDigitsCore ((m + 1) / 10 + 1) ((m + 1) / 10) (digitChar ((m + 1) % 10) :: acc) := by
  have hd : (m + 1) / 10 < m + 1 := Nat.div_lt_self (Nat.succ_pos m) (by omega)
  rw [natDigitsCore_succ (m + 1) m acc]
  exact natDigitsCore_fuel _ _ _ hd

lemma natDigitsCore_append : ∀ n acc, natDigitsCore (n + 1) n acc = natDigitsCore (n + 1) n [] ++ acc := by
  intro n
  induction n using Nat.strong_induction_on with
  | _ n ih =>
    intro acc
    rcases n with _ | m
    · simp [natDigitsCore]
    · have hd : (m + 1) / 10 < m + 1 := Nat.div_lt_self (Nat.succ_pos m) (by omega)
      rw [show m + 1 + 1 = m + 2 from rfl, natDigitsCore_unfold m acc, natDigitsCore_unfold m []]
      rw [ih _ hd (digitChar ((m + 1) % 10) :: acc), ih _ hd [digitChar ((m + 1) % 10)]]
      simp

lemma digitChar_isDigit (d : Nat) (h : d < 10) : (digitChar d).isDigit = true := by
  interval_cases d <;> decide

lemma digitChar_toNat (d : Nat) (h : d < 10) : (digitChar d).toNat = 48 + d := by
  interval_cases d <;> decide

lemma natDigitsCore_self_ne_nil : ∀ n, n ≠ 0 → natDigitsCore (n + 1) n [] ≠ [] := by
  intro n hn
  rcases n with _ | m
  · exact absurd rfl hn
  · rw [show m + 1 + 1 = m + 2 from rfl, natDigitsCore_unfold m [],
      natDigitsCore_append ((m + 1) / 10) _]
    simp

lemma natDigitsCore_foldl : ∀ n v, List.foldl (fun acc c => acc * 10 + (c.toNat - 48)) v
      (natDigitsCore (n + 1) n [])
    = v * 10 ^ (natDigitsCore (n + 1) n []).length + n := by
  intro n
  induction n using Nat.strong_induction_on with
  | _ n ih =>
    intro v
    rcases n with _ | m
    · simp [natDigitsCore]
    · have hd : (m + 1) / 10 < m + 1 := Nat.div_lt_self (Nat.succ_pos m) (by omega)
      have hm : (m + 1) % 10 < 10 := Nat.mod_lt _ (by omega)
      rw [show m + 1 + 1 = m + 2 from rfl, natDigitsCore_unfold m [],
        natDigitsCore_append ((m + 1) / 10) _]
      rw [List.foldl_append]
      simp only [List.foldl_cons, List.foldl_nil]
      rw [ih _ hd v, digitChar_toNat _ hm, Nat.add_sub_cancel_left, List.length_append,
        List.length_singleton]
      have hdm : (m + 1) / 10 * 10 + (m + 1) % 10 = m + 1 := by omega
      calc (v * 10 ^ (natDigitsCore ((m + 1) / 10 + 1) ((m + 1) / 10) []).length + (m + 1) / 10) * 10
            + (m + 1) % 10
          = v * (10 ^ (natDigitsCore ((m + 1) / 10 + 1) ((m + 1) / 10) []).length * 10)
            + ((m + 1) / 10 * 10 + (m + 1) % 10) := by ring
        _ = v * 10 ^ ((natDigitsCore ((m + 1) / 10 + 1) ((m + 1) / 10) []).length + 1) + (m + 1) := by
            rw [hdm, pow_succ]

lemma natDigitsCore_all_digits : ∀ n c, c ∈ natDigitsCore (n + 1) n [] → c.isDigit = true := by
  intro n
  induction n using Nat.strong_induction_on with
  | _ n ih =>
    intro c hc
    rcases n with _ | m
    · simp [natDigitsCore] at hc
    · have hd : (m + 1) / 10 < m + 1 := Nat.div_lt_self (Nat.succ_pos m) (by omega)
      have hm : (m + 1) % 10 < 10 := Nat.mod_lt _ (by omega)
      rw [show m + 1 + 1 = m + 2 from rfl, natDigitsCore_unfold m [],
        natDigitsCore_append ((m + 1) / 10) _] at hc
      rcases List.mem_append.mp hc with h | h
      · exact ih _ hd c h
      · rw [List.mem_singleton.mp h]
        exact digitChar_isDigit _ hm

lemma natDigits_ne_nil (n : Nat) : natDigits n ≠ [] := by
  unfold natDigits
  split
  · simp
  · exact natDigitsCore_self_ne_nil n (by assumption)

lemma natDigits_all_digits (n : Nat) : ∀ c ∈ natDigits n, c.isDigit = true := by
  unfold natDigits
  split
  · intro c hc; rw [List.mem_singleton.mp hc]; decide
  · exact fun c hc => natDigitsCore_all_digits n c hc

lemma digitsToNat_natDigits (n : Nat) : digitsToNat (natDigits n) = n := by
  unfold digitsToNat natDigits
  split
  · rename_i h; subst h; decide
  · rw [natDigitsCore_foldl n 0]
    simp

/-! ### Table-name round trip -/

lemma takeWhile_all {p : Char → Bool} : ∀ l : List Char, (∀ c ∈ l, p c = true) → l.takeWhile p = l := by
  intro l h
  induction l with
  | nil => rfl
  | cons c cs ih =>
    rw [List.takeWhile_cons, h c (List.mem_cons_self c cs)]
    simp only [ite_true]
    rw [ih fun x hx => h x (List.mem_cons_of_mem c hx)]

lemma extractIdChars_cons (rest : List Char) :
    extractIdChars ('U' :: 'S' :: 'E' :: 'R' :: '_' :: rest)
      = (if (rest.takeWhile Char.isDigit).isEmpty then none
         else some (digitsToNat (rest.takeWhile Char.isDigit))) := rfl

lemma tableName_data (u : Nat) :
    (tableName u).data = 'U' :: 'S' :: 'E' :: 'R' :: '_' :: natDigits u := by
  show ("USER_" ++ natRepr u).data = _
  rw [String.data_append]
  rfl

lemma extract_tableName (u : Nat) : extractUserId (tableName u) = some u := by
  rw [extractUserId, tableName_data, extractIdChars_cons,
    takeWhile_all (natDigits u) (natDigits_all_digits u)]
  rw [if_neg (by simpa using natDigits_ne_nil u)]
  rw [digitsToNat_natDigits]

lemma tableName_inj {u v : Nat} (h : tableName u = tableName v) : u = v := by
  have h1 := extract_tableName u
  rw [h, extract_tableName v] at h1
  exact (Option.some_injective _ h1).symm

/-! ### Database access lemmas -/

lemma getTable_setTable_self {db : DB} {n : String} {t0 : Table} (t : Table)
    (h : getTable db n = some t0) : getTable (setTable db n t) n = some t := by
  induction db with
  | nil => simp [getTable] at h
  | cons p rest ih =>
    by_cases hp : p.1 = n
    · rw [setTable, if_pos hp, getTable, if_pos rfl]
    · rw [getTable, if_neg hp] at h
      rw [setTable, if_neg hp, getTable, if_neg hp]
      exact ih h

lemma getTable_setTable_ne {n n' : String} (db : DB) (t : Table) (h : n' ≠ n) :
    getTable (setTable db n t) n' = getTable db n' := by
  induction db with
  | nil => rfl
  | cons p rest ih =>
    by_cases hp : p.1 = n
    · subst hp
      simp [getTable, setTable, Ne.symm h]
    · simp only [setTable, hp, if_false, getTable]
      rw [ih]

lemma setTable_eq_of_get {db : DB} {n : String} {t : Table} (h : getTable db n = some t) :
    setTable db n t = db := by
  induction db with
  | nil => simp [getTable] at h
  | cons p rest ih =>
    by_cases hp : p.1 = n
    · rw [getTable, if_pos hp, Option.some_inj] at h
      rw [setTable, if_pos hp, ← hp, ← h]
    · rw [getTable, if_neg hp] at h
      rw [setTable, if_neg hp, ih h]

lemma setTable_setTable (db : DB) (n : String) (a b : Table) :
    setTable (setTable db n a) n b = setTable db n b := by
  induction db with
  | nil => rfl
  | cons p rest ih =>
    by_cases hp : p.1 = n
    · simp [setTable, hp]
    · simp [setTable, hp, ih]

lemma fst_setTable (db : DB) (n : String) (t : Table) :
    (setTable db n t).map Prod.fst = db.map Prod.fst := by
  induction db with
  | nil => rfl
  | cons p rest ih =>
    by_cases hp : p.1 = n
    · simp [setTable, hp]
    · simp [setTable, hp, ih]

lemma getTable_none_iff {db : DB} {n : String} :
    getTable db n = none ↔ ∀ p ∈ db, p.1 ≠ n := by
  induction db with
  | nil => simp [getTable]
  | cons p rest ih =>
    by_cases hp : p.1 = n
    · simp [getTable, hp]
    · simp [getTable, hp, ih]

lemma getTable_some_mem {db : DB} {n : String} {t : Table} (h : getTable db n = some t) :
    (n, t) ∈ db := by
  induction db with
  | nil => simp [getTable] at h
  | cons p rest ih =>
    by_cases hp : p.1 = n
    · rw [getTable, if_pos hp, Option.some_inj] at h
      exact List.mem_cons.mpr (Or.inl (by rw [← hp, ← h]))
    · rw [getTable, if_neg hp] at h
      exact List.mem_cons_of_mem p (ih h)

lemma getTable_dropTable_self {db : DB} {n : String} (hnd : (db.map Prod.fst).Nodup) :
    getTable (dropTable db n) n = none := by
  induction db with
  | nil => rfl
  | cons p rest ih =>
    rw [List.map_cons, List.nodup_cons] at hnd
    by_cases hp : p.1 = n
    · simp only [dropTable, hp, if_true]
      rw [getTable_none_iff]
      intro q hq hqn
      apply hnd.1
      have hqp : p.1 = q.1 := by rw [hp, hqn]
      rw [hqp]
      exact List.mem_map_of_mem Prod.fst hq
    · simp only [dropTable, hp, if_false, getTable]
      exact ih hnd.2

lemma getTable_dropTable_ne {n n' : String} (db : DB) (h : n' ≠ n) :
    getTable (dropTable db n) n' = getTable db n' := by
  induction db with
  | nil => rfl
  | cons p rest ih =>
    by_cases hp : p.1 = n
    · subst hp
      simp [dropTable, getTable, Ne.symm h]
    · simp only [dropTable, hp, if_false, getTable]
      rw [ih]

lemma mem_setTable {db : DB} {n : String} {t : Table} {p : String × Table}
    (h : p ∈ setTable db n t) : p ∈ db ∨ p.1 = n := by
  induction db with
  | nil => simp [setTable] at h
  | cons q rest ih =>
    by_cases hq : q.1 = n
    · simp only [setTable, hq, if_true] at h
      rcases List.mem_cons.mp h with h | h
      · right; rw [h]
      · left; exact List.mem_cons_of_mem q h
    · simp only [setTable, hq, if_false] at h
      rcases List.mem_cons.mp h with h | h
      · left; rw [h]; exact List.mem_cons_self q rest
      · rcases ih h with h' | h'
        · left; exact List.mem_cons_of_mem q h'
        · right; exact h'

lemma mem_dropTable {db : DB} {n : String} {p : String × Table} (h : p ∈ dropTable db n) :
    p ∈ db := by
  induction db with
  | nil => simp [dropTable] at h
  | cons q rest ih =>
    by_cases hq : q.1 = n
    · simp only [dropTable, hq, if_true] at h
      exact List.mem_cons_of_mem q h
    · simp only [dropTable, hq, if_false] at h
      rcases List.mem_cons.mp h with h | h
      · rw [h]; exact List.mem_cons_self q rest
      · exact List.mem_cons_of_mem q (ih h)

lemma getTable_append_of_some {db : DB} {n : String} {t : Table} (l2 : DB)
    (h : getTable db n = some t) : getTable (db ++ l2) n = some t := by
  induction db with
  | nil => simp [getTable] at h
  | cons p rest ih =>
    by_cases hp : p.1 = n
    · simpa [getTable, hp] using h
    · simp only [List.cons_append, getTable, hp, if_false] at h ⊢
      exact ih h

lemma getTable_append_of_none {db : DB} {n : String} (l2 : DB) (h : getTable db n = none) :
    getTable (db ++ l2) n = getTable l2 n := by
  induction db with
  | nil => rfl
  | cons p rest ih =>
    by_cases hp : p.1 = n
    · simp [getTable, hp] at h
    · simp only [getTable, hp, if_false] at h
      simp only [List.cons_append, getTable, hp, if_false]
      exact ih h

/-! ### Provisioning lemmas -/

lemma ensure_of_isSome {db : DB} {u : Nat} (h : (getTable db (tableName u)).isSome) :
    ensure_user_table db u = db := by
  rw [ensure_user_table, if_pos h]

lemma getTable_ensure_of_some {db : DB} {n : String} {t : Table} (v : Nat)
    (h : getTable db n = some t) : getTable (ensure_user_table db v) n = some t := by
  rw [ensure_user_table]
  split
  · exact h
  · exact getTable_append_of_some _ h

lemma getTable_ensure_self_of_none {db : DB} {v : Nat}
    (h : getTable db (tableName v) = none) :
    getTable (ensure_user_table db v) (tableName v) = some ⟨[], 0⟩ := by
  rw [ensure_user_table, if_neg (by rw [h]; simp)]
  rw [getTable_append_of_none _ h, getTable, if_pos rfl]

lemma getTable_ensure_of_ne {db : DB} {n : String} {v : Nat}
    (h : getTable db n = none) (hn : n ≠ tableName v) :
    getTable (ensure_user_table db v) n = none := by
  rw [ensure_user_table]
  split
  · exact h
  · rw [getTable_append_of_none _ h, getTable, if_neg (Ne.symm hn)]
    rfl

lemma getTable_ensure_isSome (db : DB) (u : Nat) :
    (getTable (ensure_user_table db u) (tableName u)).isSome := by
  cases h : getTable db (tableName u) with
  | some t => rw [getTable_ensure_of_some u h]; rfl
  | none => rw [getTable_ensure_self_of_none h]; rfl

/-! ### List helper lemmas -/

lemma map_eq_self_of {α : Type} (l : List α) (f : α → α) (h : ∀ a ∈ l, f a = a) :
    l.map f = l := by
  conv_rhs => rw [← List.map_id l]
  exact List.map_congr_left h

lemma isEmpty_map {α β : Type} (f : α → β) (l : List α) : (l.map f).isEmpty = l.isEmpty := by
  cases l <;> rfl

lemma filter_id_swap (l : List Task) (tid : Nat) :
    (l.filter fun r => r.id != tid).map (fun r => (r.id, r.title, r.due_datetime, r.done))
      = (l.map fun r => (r.id, r.title, r.due_datetime, r.done)).filter
          (fun x => x.1 != tid) := by
  induction l with
  | nil => rfl
  | cons r rest ih =>
    by_cases hr : r.id = tid
    · simp [List.filter_cons, hr, ih]
    · simp [List.filter_cons, hr, ih]

lemma filter_done_swap (l : List Task) :
    (l.filter fun r => r.done == 0).map (fun r => (r.id, r.title, r.due_datetime))
      = ((l.map fun r => (r.id, r.title, r.due_datetime, r.done)).filter
          fun x => x.2.2.2 == 0).map (fun x => (x.1, x.2.1, x.2.2.1)) := by
  induction l with
  | nil => rfl
  | cons r rest ih =>
    by_cases hr : r.done = 0
    · simp [List.filter_cons, hr, ih]
    · simp [List.filter_cons, hr, ih]

/-! ### Projection lemmas for the store operations -/

lemma list_tasks_fst (db : DB) (u : Nat) : (list_tasks db u).1 = ensure_user_table db u := by
  rw [list_tasks]
  split <;> rfl

lemma list_tasks_snd (db : DB) (u : Nat) :
    (list_tasks db u).2 = (rowsOf db u).map fun r => (r.id, r.title, r.due_datetime, r.done) := by
  rw [list_tasks, rowsOf]
  cases h : getTable db (tableName u) with
  | some t =>
    rw [getTable_ensure_of_some u h]
  | none =>
    rw [getTable_ensure_self_of_none h]

lemma get_pending_tasks_fst (db : DB) (u : Nat) :
    (get_pending_tasks db u).1 = ensure_user_table db u := by
  rw [get_pending_tasks]
  split <;> rfl

lemma get_pending_tasks_snd (db : DB) (u : Nat) :
    (get_pending_tasks db u).2
      = (pendingRows db u).map fun r => (r.id, r.title, r.due_datetime) := by
  rw [get_pending_tasks, pendingRows]
  cases h : getTable db (tableName u) with
  | some t =>
    rw [getTable_ensure_of_some u h]
  | none =>
    rw [getTable_ensure_self_of_none h]
    rfl

lemma pendingRows_eq_filter_rowsOf (db : DB) (u : Nat) :
    pendingRows db u = (rowsOf db u).filter fun r => r.done == 0 := by
  rw [pendingRows, rowsOf]
  cases getTable db (tableName u) <;> rfl

lemma pendingRows_ensure (db : DB) (v u : Nat) :
    pendingRows (ensure_user_table db v) u = pendingRows db u := by
  rw [pendingRows, pendingRows]
  cases h : getTable db (tableName u) with
  | some t => rw [getTable_ensure_of_some v h]
  | none =>
    by_cases hv : tableName u = tableName v
    · rw [hv] at h ⊢
      rw [getTable_ensure_self_of_none h]
      rfl
    · rw [getTable_ensure_of_ne h hv]

/-! ### Sweep lemmas -/

lemma sweepStep_db (fails : Nat → Bool) (st : SweepResult) (u : Nat) :
    (sweepStep fails st u).db = ensure_user_table st.db u := by
  simp only [sweepStep]
  split <;> exact get_pending_tasks_fst st.db u

lemma sweepStep_sent (fails : Nat → Bool) (st : SweepResult) (u : Nat) :
    (sweepStep fails st u).sent
      = if (get_pending_tasks st.db u).2.isEmpty then st.sent
        else st.sent ++ [(u, reminderMessage (get_pending_tasks st.db u).2)] := by
  simp only [sweepStep]
  split <;> rfl

lemma sweepStep_errors (fails : Nat → Bool) (st : SweepResult) (u : Nat) :
    (sweepStep fails st u).errors
      = if (get_pending_tasks st.db u).2.isEmpty then st.errors
        else (if fails u then st.errors ++ [u] else st.errors) := by
  simp only [sweepStep]
  split <;> rfl

lemma sweep_foldl (fails : Nat → Bool) (db0 : DB) :
    ∀ (users : List Nat) (st : SweepResult),
      (∀ w, pendingRows st.db w = pendingRows db0 w) →
      ((users.foldl (sweepStep fails) st).sent
          = st.sent ++ ((users.filter fun u => !(pendingRows db0 u).isEmpty).map
              fun u => (u, reminderMessage ((pendingRows db0 u).map
                fun r => (r.id, r.title, r.due_datetime))))
        ∧ (users.foldl (sweepStep fails) st).errors
          = st.errors ++ ((users.filter fun u => !(pendingRows db0 u).isEmpty).filter fails)) := by
  intro users
  induction users with
  | nil => intro st h; simp
  | cons u us ih =>
    intro st h
    have hstep_db : ∀ w, pendingRows (sweepStep fails st u).db w = pendingRows db0 w := by
      intro w
      rw [sweepStep_db, pendingRows_ensure, h]
    have hsnd : (get_pending_tasks st.db u).2
        = (pendingRows db0 u).map fun r => (r.id, r.title, r.due_datetime) := by
      rw [get_pending_tasks_snd, h]
    obtain ⟨ih1, ih2⟩ := ih (sweepStep fails st u) hstep_db
    constructor
    · rw [List.foldl_cons, ih1, sweepStep_sent, hsnd, isEmpty_map, List.filter_cons]
      by_cases hemp : (pendingRows db0 u).isEmpty
      · simp [hemp]
      · simp [hemp]
    · rw [List.foldl_cons, ih2, sweepStep_errors, hsnd, isEmpty_map, List.filter_cons]
      by_cases hemp : (pendingRows db0 u).isEmpty
      · simp [hemp]
      · by_cases hf : fails u
        · simp [hemp, hf, List.filter_cons]
        · simp [hemp, hf, List.filter_cons]

/-- C9: in every sweep run, a delivery call is attempted exactly for the known
users (in `get_all_user_ids` order) whose `get_pending_tasks` view of the
starting database is non-empty; the message for such a user is the header plus
one line `{id}. {title} — {due_datetime}` per pending task; and which deliveries
fail (`fails`) influences only the error log — never which users are attempted —
so one user's delivery failure does not suppress the deliveries to the others. -/
theorem reminder_task_spec (db : DB) (fails : Nat → Bool) :
    (reminder_task db fails).sent
        = (((get_all_user_ids db).filter fun u => !(get_pending_tasks db u).2.isEmpty).map
            fun u => (u, reminderHeader ++ String.intercalate ("\n")
              ((get_pending_tasks db u).2.map fun t =>
                natRepr t.1 ++ ". " ++ t.2.1 ++ " — " ++ t.2.2 ++ "\n")))
      ∧ (reminder_task db fails).errors
        = (((get_all_user_ids db).filter fun u => !(get_pending_tasks db u).2.isEmpty).filter
            fails) := by
  obtain ⟨h1, h2⟩ := sweep_foldl fails db (get_all_user_ids db) ⟨db, [], []⟩ (fun w => rfl)
  have hfil : (fun u => !(pendingRows db u).isEmpty)
      = fun u => !(get_pending_tasks db u).2.isEmpty := by
    funext u
    rw [get_pending_tasks_snd, isEmpty_map]
  have hmsg : ∀ u : Nat, reminderMessage ((pendingRows db u).map
        fun r => (r.id, r.title, r.due_datetime))
      = reminderHeader ++ String.intercalate ("\n")
          ((get_pending_tasks db u).2.map fun t =>
            natRepr t.1 ++ ". " ++ t.2.1 ++ " — " ++ t.2.2 ++ "\n") := by
    intro u
    rw [get_pending_tasks_snd, reminderMessage]
    rfl
  constructor
  · rw [reminder_task, h1, hfil]
    simp only [List.nil_append]
    exact List.map_congr_left fun u _ => by rw [hmsg u]
  · rw [reminder_task, h2, hfil]
    simp

/-! ### Characterization of the mutating operations -/

lemma delete_task_of_none {db : DB} {u : Nat} (tid : Nat)
    (ht : getTable db (tableName u) = none) : delete_task db u tid = none := by
  simp only [delete_task, ht]

lemma delete_task_of_some {db : DB} {u : Nat} {t : Table} (tid : Nat)
    (ht : getTable db (tableName u) = some t) :
    delete_task db u tid
      = if (t.rows.filter fun r => r.id != tid).length = 0
        then some (dropTable (setTable db (tableName u)
              ⟨t.rows.filter fun r => r.id != tid, t.seq⟩) (tableName u))
        else some (setTable db (tableName u)
              ⟨t.rows.filter fun r => r.id != tid, t.seq⟩) := by
  simp only [delete_task, ht]

lemma mark_done_of_none {db : DB} {u : Nat} (tid : Nat) (d : Bool)
    (ht : getTable db (tableName u) = none) : mark_done db u tid d = none := by
  simp only [mark_done, ht]

lemma mark_done_of_some {db : DB} {u : Nat} {t : Table} (tid : Nat) (d : Bool)
    (ht : getTable db (tableName u) = some t) :
    mark_done db u tid d
      = some (setTable db (tableName u)
          ⟨t.rows.map fun r =>
            if r.id = tid then { r with done := if d then 1 else 0 } else r, t.seq⟩) := by
  simp only [mark_done, ht]

lemma add_task_of_ensure {db : DB} {u : Nat} {t1 : Table} (title due : String)
    (ht1 : getTable (ensure_user_table db u) (tableName u) = some t1) :
    add_task db u title due
      = (setTable (ensure_user_table db u) (tableName u)
          ⟨t1.rows ++ [⟨t1.seq + 1, title, due, 0, none⟩], t1.seq + 1⟩, none) := by
  simp only [add_task, ht1]

lemma rowsOf_eq_of_ensure {db : DB} {u : Nat} {t1 : Table}
    (ht1 : getTable (ensure_user_table db u) (tableName u) = some t1) :
    rowsOf db u = t1.rows := by
  cases h : getTable db (tableName u) with
  | some t =>
    rw [getTable_ensure_of_some u h, Option.some_inj] at ht1
    rw [rowsOf, h, ht1]
  | none =>
    rw [getTable_ensure_self_of_none h, Option.some_inj] at ht1
    rw [rowsOf, h, ← ht1]

/-- C6: for every database state and user, the `get_pending_tasks` view equals
the `list_tasks` view restricted to the records with `done = 0` (the stored
form of `done=false`), projected to `(id, title, due_datetime)`, in the same
order; and both operations leave the database in the same state (each only
provisions the user's table). -/
theorem pending_eq_list_filter (db : DB) (u : Nat) :
    (get_pending_tasks db u).2
        = (((list_tasks db u).2.filter fun x => x.2.2.2 == 0).map
            fun x => (x.1, x.2.1, x.2.2.1))
      ∧ (get_pending_tasks db u).1 = (list_tasks db u).1 := by
  constructor
  · rw [get_pending_tasks_snd, list_tasks_snd, pendingRows_eq_filter_rowsOf]
    exact filter_done_swap (rowsOf db u)
  · rw [get_pending_tasks_fst, list_tasks_fst]

/-- C1 counterexample: on the empty database, user 42's `add_task` appends the
record and assigns it id 1, but the call returns `None` rather than the
assigned id (the Python method has no `return` statement). -/
theorem add_task_returns_none_cex :
    (add_task [] 42 "Buy milk" "2025-01-01T18:00").2 = none
      ∧ (list_tasks (add_task [] 42 "Buy milk" "2025-01-01T18:00").1 42).2
          = [(1, "Buy milk", "2025-01-01T18:00", 0)]
      ∧ (add_task [] 42 "Buy milk" "2025-01-01T18:00").2 ≠ some 1 := by
  decide

/-- C1 amended: for every state, user and valid input, `add_task` appends
exactly one new record with `done = 0` and the given title and due date — a
subsequent `list_tasks` returns the prior listing plus exactly that one new
record — but the call returns `None`, not the assigned id. -/
theorem add_task_appends_amended (db : DB) (u : Nat) (title due : String)
    (_htitle : title ≠ "") :
    (∃ newId,
      (list_tasks (add_task db u title due).1 u).2
        = (list_tasks db u).2 ++ [(newId, title, due, 0)])
      ∧ (add_task db u title due).2 = none := by
  obtain ⟨t1, ht1⟩ := Option.isSome_iff_exists.mp (getTable_ensure_isSome db u)
  rw [add_task_of_ensure title due ht1]
  refine ⟨⟨t1.seq + 1, ?_⟩, rfl⟩
  rw [list_tasks_snd, list_tasks_snd, rowsOf_eq_of_ensure ht1]
  have hnew : rowsOf (setTable (ensure_user_table db u) (tableName u)
        ⟨t1.rows ++ [⟨t1.seq + 1, title, due, 0, none⟩], t1.seq + 1⟩) u
      = t1.rows ++ [⟨t1.seq + 1, title, due, 0, none⟩] := by
    rw [rowsOf, getTable_setTable_self _ ht1]
  rw [hnew, List.map_append]
  rfl

/-- C1 amended, witness at a concrete input. -/
theorem add_task_appends_amended_witness :
    (∃ newId,
      (list_tasks (add_task [] 42 "Buy milk" "2025-01-01T18:00").1 42).2
        = (list_tasks ([] : DB) 42).2 ++ [(newId, "Buy milk", "2025-01-01T18:00", 0)])
      ∧ (add_task [] 42 "Buy milk" "2025-01-01T18:00").2 = none :=
  add_task_appends_amended [] 42 "Buy milk" "2025-01-01T18:00" (by decide)

/-- C2 counterexample: `list_tasks` on a user with no tasks provisions an empty
table that persists, so immediately after this store operation an empty
per-user collection exists in storage, contradicting the claimed invariant. -/
theorem empty_collection_persists_cex :
    isEmptyCollection (list_tasks [] 5).1 (tableName 5) = true := by
  decide

/-- C2 amended: `delete_task` does enforce the no-empty-collection invariant
for the targeted user (it drops the table when the last row goes away), and
`add_task` always leaves the targeted user's collection non-empty; but the
reading operations (`ensure_user_table`, `list_tasks`, `get_pending_tasks`) can
create an empty collection that persists, so the invariant does not hold after
every store operation. -/
theorem no_empty_after_mutation_amended (db db2 : DB) (u u2 tid : Nat)
    (title due : String) (db' : DB)
    (hnd : (db.map Prod.fst).Nodup) (h : delete_task db u tid = some db') :
    isEmptyCollection db' (tableName u) = false
      ∧ isEmptyCollection (add_task db2 u2 title due).1 (tableName u2) = false := by
  constructor
  · cases ht : getTable db (tableName u) with
    | none => rw [delete_task_of_none tid ht] at h; exact absurd h (by simp)
    | some t =>
      rw [delete_task_of_some tid ht] at h
      split at h <;> rw [Option.some_inj] at h <;> subst h
      · rename_i hl
        have hnd1 : ((setTable db (tableName u)
            ⟨t.rows.filter fun r => r.id != tid, t.seq⟩).map Prod.fst).Nodup := by
          rw [fst_setTable]; exact hnd
        rw [isEmptyCollection, getTable_dropTable_self hnd1]
      · rename_i hl
        rw [isEmptyCollection, getTable_setTable_self _ ht]
        cases hfil : t.rows.filter fun r => r.id != tid with
        | nil => exact absurd (by rw [hfil]; rfl) hl
        | cons a as => rfl
  · obtain ⟨t1, ht1⟩ := Option.isSome_iff_exists.mp (getTable_ensure_isSome db2 u2)
    rw [add_task_of_ensure title due ht1]
    rw [isEmptyCollection, getTable_setTable_self _ ht1]
    simp

/-- C2 amended, witness at a concrete input (a two-row user deletes one row;
a fresh user adds a row). -/
theorem no_empty_after_mutation_amended_witness :
    isEmptyCollection [(tableName 1, (⟨[⟨2, "b", "e", 0, none⟩], 2⟩ : Table))]
        (tableName 1) = false
      ∧ isEmptyCollection (add_task [] 4 "t" "d").1 (tableName 4) = false :=
  no_empty_after_mutation_amended
    [(tableName 1, ⟨[⟨1, "a", "d", 0, none⟩, ⟨2, "b", "e", 0, none⟩], 2⟩)]
    [] 1 4 1 "t" "d"
    [(tableName 1, ⟨[⟨2, "b", "e", 0, none⟩], 2⟩)]
    (by decide) (by decide)

/-- C3 counterexample: for a user whose collection was never provisioned,
`mark_done` and `delete_task` do not succeed as no-ops — they hit a missing
table (an `sqlite3.OperationalError`), because neither calls
`ensure_user_table` first. -/
theorem missing_table_error_cex :
    mark_done [] 5 1 true = none ∧ delete_task [] 5 1 = none := by
  decide

/-- C3 amended: when the user's collection exists, `mark_done` with a task id
matching no record succeeds and leaves the state unchanged, and `delete_task`
with such an id leaves the state unchanged provided the collection is non-empty
(an existing empty collection would be dropped, see C10); but when the user's
collection does not exist, both operations fail with an error — the operations
do not first guarantee the collection exists. -/
theorem noop_requires_table_amended (db : DB) (u tid : Nat) (d : Bool) :
    (getTable db (tableName u) = none →
        mark_done db u tid d = none ∧ delete_task db u tid = none)
      ∧ (∀ t, getTable db (tableName u) = some t → (∀ r ∈ t.rows, r.id ≠ tid) →
          mark_done db u tid d = some db
            ∧ (t.rows ≠ [] → delete_task db u tid = some db)) := by
  constructor
  · intro h
    exact ⟨mark_done_of_none tid d h, delete_task_of_none tid h⟩
  · intro t ht hno
    have hmap : (t.rows.map fun r =>
        if r.id = tid then { r with done := if d then 1 else 0 } else r) = t.rows :=
      map_eq_self_of _ _ fun r hr => if_neg (hno r hr)
    have hfil : (t.rows.filter fun r => r.id != tid) = t.rows :=
      List.filter_eq_self.mpr fun r hr => by
        rw [bne_iff_ne]
        exact hno r hr
    constructor
    · rw [mark_done_of_some tid d ht, hmap,
        show (⟨t.rows, t.seq⟩ : Table) = t from rfl, setTable_eq_of_get ht]
    · intro hne
      rw [delete_task_of_some tid ht, hfil,
        if_neg (fun hc => hne (List.length_eq_zero.mp hc)),
        show (⟨t.rows, t.seq⟩ : Table) = t from rfl, setTable_eq_of_get ht]

/-- C3 amended, witness: a no-op `mark_done` on an existing collection and an
erroring `mark_done` on a missing one. -/
theorem noop_requires_table_amended_witness :
    mark_done [(tableName 1, (⟨[⟨1, "a", "d", 0, none⟩], 1⟩ : Table))] 1 99 true
        = some [(tableName 1, (⟨[⟨1, "a", "d", 0, none⟩], 1⟩ : Table))]
      ∧ mark_done [(tableName 1, (⟨[⟨1, "a", "d", 0, none⟩], 1⟩ : Table))] 2 7 true = none :=
  ⟨((noop_requires_table_amended [(tableName 1, ⟨[⟨1, "a", "d", 0, none⟩], 1⟩)] 1 99 true).2
      ⟨[⟨1, "a", "d", 0, none⟩], 1⟩ (by decide) (by decide)).1,
   ((noop_requires_table_amended [(tableName 1, ⟨[⟨1, "a", "d", 0, none⟩], 1⟩)] 2 7 true).1
      (by decide)).1⟩

/-! ### Round-trip lemmas (C7) -/

lemma mark_round_trip_eq {db : DB} {u tid : Nat} {t : Table}
    (ht : getTable db (tableName u) = some t) :
    mark_round_trip db u tid
      = some (setTable db (tableName u)
          ⟨t.rows.map fun r => if r.id = tid then { r with done := 0 } else r, t.seq⟩) := by
  rw [mark_round_trip, mark_done_of_some tid true ht, Option.some_bind,
    mark_done_of_some tid false (getTable_setTable_self _ ht), setTable_setTable]
  simp only [if_true, if_false, List.map_map, Option.some_inj]
  congr 1
  congr 1
  apply List.map_congr_left
  intro r _
  by_cases hr : r.id = tid
  · simp [Function.comp, hr]
  · simp [Function.comp, hr]

/-- C7 counterexample: a record that exists but is already done (`done = 1`) is
not pending before the round trip, yet `mark_done(...,True)` then
`mark_done(...,False)` forces it to `done = 0`, making it pending — the
original `pending_tasks` membership is not restored. -/
theorem mark_round_trip_cex :
    (get_pending_tasks [(tableName 1, (⟨[⟨1, "t", "d", 1, none⟩], 1⟩ : Table))] 1).2 = []
      ∧ mark_round_trip [(tableName 1, (⟨[⟨1, "t", "d", 1, none⟩], 1⟩ : Table))] 1 1
          = some [(tableName 1, (⟨[⟨1, "t", "d", 0, none⟩], 1⟩ : Table))]
      ∧ (get_pending_tasks [(tableName 1, (⟨[⟨1, "t", "d", 0, none⟩], 1⟩ : Table))] 1).2
          = [(1, "t", "d")] := by
  decide

/-- C7 amended: for a task id identifying an existing record of the user, the
composed operation `mark_done(u, id, True); mark_done(u, id, False)` is
idempotent; it restores the original state (and hence the original
`pending_tasks` membership) exactly when every record with that id was
originally pending (`done = 0`) — a record already done is left pending
instead. -/
theorem mark_round_trip_amended (db : DB) (u tid : Nat) (t : Table)
    (ht : getTable db (tableName u) = some t)
    (_hex : ∃ r ∈ t.rows, r.id = tid) :
    ((mark_round_trip db u tid).bind fun s => mark_round_trip s u tid)
        = mark_round_trip db u tid
      ∧ ((∀ r ∈ t.rows, r.id = tid → r.done = 0) → mark_round_trip db u tid = some db) := by
  constructor
  · rw [mark_round_trip_eq ht, Option.some_bind,
      mark_round_trip_eq (getTable_setTable_self _ ht), setTable_setTable, Option.some_inj]
    congr 1
    congr 1
    rw [List.map_map]
    apply List.map_congr_left
    intro r _
    by_cases hr : r.id = tid
    · simp [Function.comp, hr]
    · simp [Function.comp, hr]
  · intro h0
    rw [mark_round_trip_eq ht]
    have hmap : (t.rows.map fun r => if r.id = tid then { r with done := 0 } else r)
        = t.rows := by
      apply map_eq_self_of
      intro r hr
      by_cases hrid : r.id = tid
      · rw [if_pos hrid]
        have hdone : r.done = 0 := h0 r hr hrid
        calc ({ r with done := 0 } : Task) = { r with done := r.done } := by rw [hdone]
          _ = r := rfl
      · rw [if_neg hrid]
    rw [hmap, show (⟨t.rows, t.seq⟩ : Table) = t from rfl, setTable_eq_of_get ht]

/-- C7 amended, witness at a concrete pending record. -/
theorem mark_round_trip_amended_witness :
    ((mark_round_trip [(tableName 1, (⟨[⟨1, "t", "d", 0, none⟩], 1⟩ : Table))] 1 1).bind
        fun s => mark_round_trip s 1 1)
        = mark_round_trip [(tableName 1, (⟨[⟨1, "t", "d", 0, none⟩], 1⟩ : Table))] 1 1
      ∧ mark_round_trip [(tableName 1, (⟨[⟨1, "t", "d", 0, none⟩], 1⟩ : Table))] 1 1
          = some [(tableName 1, (⟨[⟨1, "t", "d", 0, none⟩], 1⟩ : Table))] :=
  have h := mark_round_trip_amended [(tableName 1, ⟨[⟨1, "t", "d", 0, none⟩], 1⟩)] 1 1
    ⟨[⟨1, "t", "d", 0, none⟩], 1⟩ (by decide) (by decide)
  ⟨h.1, h.2 (by decide)⟩

/-! ### Frame property of delete (C8) -/

/-- C8: `delete_task(u, tid)` (on an existing collection, in a well-formed
database whose table names are unique) removes exactly the identified record
from the subsequent `list_tasks(u)` view, and leaves every other user `v`'s
collection — its very existence and all its records — unchanged. -/
theorem delete_task_frame (db db' : DB) (u v tid : Nat)
    (hnd : (db.map Prod.fst).Nodup) (huv : u ≠ v)
    (h : delete_task db u tid = some db') :
    getTable db' (tableName v) = getTable db (tableName v)
      ∧ (list_tasks db' v).2 = (list_tasks db v).2
      ∧ (list_tasks db' u).2 = (list_tasks db u).2.filter fun x => x.1 != tid := by
  have hvu : tableName v ≠ tableName u := fun hc => huv (tableName_inj hc).symm
  cases ht : getTable db (tableName u) with
  | none => rw [delete_task_of_none tid ht] at h; exact absurd h (by simp)
  | some t =>
    rw [delete_task_of_some tid ht] at h
    split at h <;> rw [Option.some_inj] at h <;> subst h
    · rename_i hl
      have hnd1 : ((setTable db (tableName u)
          ⟨t.rows.filter fun r => r.id != tid, t.seq⟩).map Prod.fst).Nodup := by
        rw [fst_setTable]; exact hnd
      have h1 : getTable (dropTable (setTable db (tableName u)
            ⟨t.rows.filter fun r => r.id != tid, t.seq⟩) (tableName u)) (tableName v)
          = getTable db (tableName v) := by
        rw [getTable_dropTable_ne _ hvu, getTable_setTable_ne _ _ hvu]
      refine ⟨h1, ?_, ?_⟩
      · simp only [list_tasks_snd, rowsOf]
        rw [h1]
      · simp only [list_tasks_snd]
        rw [← filter_id_swap]
        have h2 : rowsOf (dropTable (setTable db (tableName u)
              ⟨t.rows.filter fun r => r.id != tid, t.seq⟩) (tableName u)) u = [] := by
          rw [rowsOf, getTable_dropTable_self hnd1]
        rw [h2, rowsOf, ht, List.length_eq_zero.mp hl]
    · rename_i hl
      have h1 : getTable (setTable db (tableName u)
            ⟨t.rows.filter fun r => r.id != tid, t.seq⟩) (tableName v)
          = getTable db (tableName v) := getTable_setTable_ne _ _ hvu
      refine ⟨h1, ?_, ?_⟩
      · simp only [list_tasks_snd, rowsOf]
        rw [h1]
      · simp only [list_tasks_snd]
        rw [← filter_id_swap]
        have h2 : rowsOf (setTable db (tableName u)
              ⟨t.rows.filter fun r => r.id != tid, t.seq⟩) u
            = t.rows.filter fun r => r.id != tid := by
          rw [rowsOf, getTable_setTable_self _ ht]
        rw [h2, rowsOf, ht]

/-- C8, witness: user 1 deletes one of two records; user 2's collection is
untouched and user 1's listing loses exactly the deleted record. -/
theorem delete_task_frame_witness :
    getTable [(tableName 1, (⟨[⟨2, "b", "e", 1, none⟩], 2⟩ : Table)),
        (tableName 2, (⟨[⟨1, "c", "f", 0, none⟩], 1⟩ : Table))] (tableName 2)
        = getTable [(tableName 1, (⟨[⟨1, "a", "d", 0, none⟩, ⟨2, "b", "e", 1, none⟩], 2⟩ : Table)),
            (tableName 2, (⟨[⟨1, "c", "f", 0, none⟩], 1⟩ : Table))] (tableName 2)
      ∧ (list_tasks [(tableName 1, (⟨[⟨2, "b", "e", 1, none⟩], 2⟩ : Table)),
            (tableName 2, (⟨[⟨1, "c", "f", 0, none⟩], 1⟩ : Table))] 2).2
          = (list_tasks [(tableName 1, (⟨[⟨1, "a", "d", 0, none⟩, ⟨2, "b", "e", 1, none⟩], 2⟩ : Table)),
              (tableName 2, (⟨[⟨1, "c", "f", 0, none⟩], 1⟩ : Table))] 2).2
      ∧ (list_tasks [(tableName 1, (⟨[⟨2, "b", "e", 1, none⟩], 2⟩ : Table)),
            (tableName 2, (⟨[⟨1, "c", "f", 0, none⟩], 1⟩ : Table))] 1).2
          = (list_tasks [(tableName 1, (⟨[⟨1, "a", "d", 0, none⟩, ⟨2, "b", "e", 1, none⟩], 2⟩ : Table)),
              (tableName 2, (⟨[⟨1, "c", "f", 0, none⟩], 1⟩ : Table))] 1).2.filter
              fun x => x.1 != 1 :=
  delete_task_frame
    [(tableName 1, ⟨[⟨1, "a", "d", 0, none⟩, ⟨2, "b", "e", 1, none⟩], 2⟩),
      (tableName 2, ⟨[⟨1, "c", "f", 0, none⟩], 1⟩)]
    [(tableName 1, ⟨[⟨2, "b", "e", 1, none⟩], 2⟩),
      (tableName 2, ⟨[⟨1, "c", "f", 0, none⟩], 1⟩)]
    1 2 1 (by decide) (by decide) (by decide)

/-! ### Deleting the last row drops the collection (C4, C10) -/

lemma delete_drops_table {db : DB} {u tid : Nat} {t : Table}
    (hnd : (db.map Prod.fst).Nodup)
    (ht : getTable db (tableName u) = some t)
    (hrem : (t.rows.filter fun r => r.id != tid) = [])
    (hu : ∀ p ∈ db, extractUserId p.1 = some u → p.1 = tableName u) :
    ∃ db', delete_task db u tid = some db'
      ∧ getTable db' (tableName u) = none
      ∧ u ∉ get_all_user_ids db' := by
  have hnd1 : ((setTable db (tableName u) ⟨[], t.seq⟩).map Prod.fst).Nodup := by
    rw [fst_setTable]; exact hnd
  refine ⟨dropTable (setTable db (tableName u) ⟨[], t.seq⟩) (tableName u), ?_, ?_, ?_⟩
  · rw [delete_task_of_some tid ht, hrem]
    simp
  · exact getTable_dropTable_self hnd1
  · intro hmem
    rw [get_all_user_ids] at hmem
    obtain ⟨p, hp, hpe⟩ := List.mem_filterMap.mp hmem
    have hpne : p.1 ≠ tableName u :=
      getTable_none_iff.mp (getTable_dropTable_self hnd1) p hp
    rcases mem_setTable (mem_dropTable hp) with hpd | hpn
    · exact hpne (hu p hpd hpe)
    · exact hpne hpn

/-- C10: for a user whose collection exists but holds zero records (such a
state is reachable, e.g. via `list_tasks` on a fresh user, see the C2
counterexample), `delete_task` with any task id — also one matching no record —
drops the whole collection and removes the user from `get_all_user_ids`; the
drop-when-empty check runs after every delete regardless of whether a row was
removed.  (The two final hypotheses — unique table names and no stray name
parsing to `u` — hold in every database the program itself builds.) -/
theorem delete_empty_drops_collection (db : DB) (u tid : Nat) (t : Table)
    (hnd : (db.map Prod.fst).Nodup)
    (ht : getTable db (tableName u) = some t) (hempty : t.rows = [])
    (hu : ∀ p ∈ db, extractUserId p.1 = some u → p.1 = tableName u) :
    ∃ db', delete_task db u tid = some db'
      ∧ getTable db' (tableName u) = none
      ∧ u ∉ get_all_user_ids db' :=
  delete_drops_table hnd ht (by rw [hempty]; rfl) hu

/-- C10, witness: an empty collection for user 3 is dropped by deleting the
nonexistent task 99. -/
theorem delete_empty_drops_collection_witness :
    ∃ db', delete_task [(tableName 3, (⟨[], 0⟩ : Table))] 3 99 = some db'
      ∧ getTable db' (tableName 3) = none
      ∧ 3 ∉ get_all_user_ids db' :=
  delete_empty_drops_collection [(tableName 3, ⟨[], 0⟩)] 3 99 ⟨[], 0⟩
    (by decide) (by decide) rfl (by decide)

/-- C4 counterexample: after user 42's only task is deleted the user is absent
from `get_all_user_ids`, but a mere `list_tasks` — not an `add_task` —
re-provisions the collection and makes the user reappear, so the user does not
stay absent until the next `add_task`. -/
theorem absent_until_add_cex :
    delete_task (add_task [] 42 "Buy milk" "d").1 42 1 = some []
      ∧ get_all_user_ids ([] : DB) = []
      ∧ get_all_user_ids (list_tasks ([] : DB) 42).1 = [42] := by
  decide

/-- C4 amended: deleting the id of a user's only record drops the whole
collection, and immediately afterwards the user is absent from
`get_all_user_ids`; the user reappears as soon as any operation re-provisions
the collection — `add_task` does, but so do `list_tasks` and
`get_pending_tasks` — so absence lasts only until the next provisioning
operation by that user, not specifically until the next `add_task`.  (The two
final hypotheses hold in every database the program itself builds.) -/
theorem delete_last_removes_user_amended (db : DB) (u tid : Nat) (t : Table) (r : Task)
    (title due : String)
    (hnd : (db.map Prod.fst).Nodup)
    (ht : getTable db (tableName u) = some t)
    (hone : t.rows = [r]) (hid : r.id = tid)
    (hu : ∀ p ∈ db, extractUserId p.1 = some u → p.1 = tableName u) :
    ∃ db', delete_task db u tid = some db'
      ∧ getTable db' (tableName u) = none
      ∧ u ∉ get_all_user_ids db'
      ∧ u ∈ get_all_user_ids (add_task db' u title due).1 := by
  have hrem : (t.rows.filter fun r => r.id != tid) = [] := by
    rw [hone]
    simp [List.filter_cons, hid]
  obtain ⟨db', h1, h2, h3⟩ := delete_drops_table hnd ht hrem hu
  refine ⟨db', h1, h2, h3, ?_⟩
  obtain ⟨t1, ht1⟩ := Option.isSome_iff_exists.mp (getTable_ensure_isSome db' u)
  rw [add_task_of_ensure title due ht1, get_all_user_ids]
  exact List.mem_filterMap.mpr
    ⟨(tableName u, ⟨t1.rows ++ [⟨t1.seq + 1, title, due, 0, none⟩], t1.seq + 1⟩),
      getTable_some_mem (getTable_setTable_self _ ht1), extract_tableName u⟩

/-- C4 amended, witness: user 7's single record is deleted, 7 vanishes from the
directory, and re-adding a task brings 7 back. -/
theorem delete_last_removes_user_amended_witness :
    ∃ db', delete_task [(tableName 7, (⟨[⟨1, "x", "d", 0, none⟩], 1⟩ : Table))] 7 1 = some db'
      ∧ getTable db' (tableName 7) = none
      ∧ 7 ∉ get_all_user_ids db'
      ∧ 7 ∈ get_all_user_ids (add_task db' 7 "y" "e").1 :=
  delete_last_removes_user_amended [(tableName 7, ⟨[⟨1, "x", "d", 0, none⟩], 1⟩)] 7 1
    ⟨[⟨1, "x", "d", 0, none⟩], 1⟩ ⟨1, "x", "d", 0, none⟩ "y" "e"
    (by decide) (by decide) rfl rfl (by decide)

/-! ### Store directory (C5) -/

/-- C5 counterexample: the scan uses an unanchored `re.match`, so the table
name `USER_7x` — which is not the collection name of any user, in particular
not of user 7 — still contributes 7: the result is not exactly the set of ids
embedded in existing per-user collection names. -/
theorem known_user_ids_prefix_cex :
    7 ∈ get_all_user_ids [("USER_7x", (⟨[], 0⟩ : Table))]
      ∧ getTable [("USER_7x", (⟨[], 0⟩ : Table))] (tableName 7) = none := by
  decide

/-- C5 amended: `get_all_user_ids` parses the leading digit run of every table
name starting with `USER_` plus at least one digit (a name with trailing
non-digit characters still contributes, see the counterexample); on databases
whose table names all follow the exact convention `USER_<decimal id>` — in
particular every database this program builds — the result contains exactly
those `u` whose collection `USER_<u>` exists; a name not matching the pattern
is ignored without error, and the result is empty for the empty database. -/
theorem known_user_ids_amended (db : DB) :
    ((∀ p ∈ db, ∃ n : Nat, p.1 = tableName n) →
        ∀ u : Nat, (u ∈ get_all_user_ids db ↔ ∃ p ∈ db, p.1 = tableName u))
      ∧ get_all_user_ids ([] : DB) = []
      ∧ ∀ (name : String) (t : Table) (dbx : DB), extractUserId name = none →
          get_all_user_ids ((name, t) :: dbx) = get_all_user_ids dbx := by
  refine ⟨?_, rfl, ?_⟩
  · intro hconv u
    constructor
    · intro hmem
      obtain ⟨p, hp, hpe⟩ := List.mem_filterMap.mp hmem
      obtain ⟨n, hn⟩ := hconv p hp
      rw [hn, extract_tableName, Option.some_inj] at hpe
      exact ⟨p, hp, by rw [hn, hpe]⟩
    · intro hex
      obtain ⟨p, hp, hpe⟩ := hex
      exact List.mem_filterMap.mpr ⟨p, hp, by rw [hpe, extract_tableName]⟩
  · intro name t dbx he
    rw [get_all_user_ids, get_all_user_ids, List.filterMap_cons]
    simp [he]

/-- C5 amended, witness: on a convention-named database the directory is exact,
and a non-matching name (`sqlite_sequence`) is ignored. -/
theorem known_user_ids_amended_witness :
    (3 ∈ get_all_user_ids [(tableName 3, (⟨[], 0⟩ : Table))]
        ↔ ∃ p ∈ [(tableName 3, (⟨[], 0⟩ : Table))], p.1 = tableName 3)
      ∧ get_all_user_ids (("sqlite_sequence", (⟨[], 0⟩ : Table))
            :: [(tableName 3, (⟨[], 0⟩ : Table))])
          = get_all_user_ids [(tableName 3, (⟨[], 0⟩ : Table))] :=
  have h := known_user_ids_amended [(tableName 3, ⟨[], 0⟩)]
  ⟨h.1 (fun p hp => ⟨3, by rw [List.mem_singleton] at hp; rw [hp]⟩) 3,
   h.2.2 ("sqlite_sequence") ⟨[], 0⟩ [(tableName 3, ⟨[], 0⟩)] (by decide)⟩

end RemindBot
